import Mathlib

/-!
Formal model of the spaced-repetition core of the ai-vocab-fsrs repository:
the FSRS memory-model service (class FSRSService in fsrsService) and the
scheduling / selection / streak operations of LocalDatabaseService in
databaseService.

Conventions of the embedding:
* Timestamps are modelled as integers counting milliseconds (the value of
  Date.getTime in the source); adding d calendar days via setDate is modelled
  as adding d * 86400000 milliseconds.
* JS numbers appearing in the FSRS arithmetic are modelled as real numbers.
  The special JS values that actually arise for the review_count field
  (undefined, NaN, null) are modelled by the dedicated type JVal below,
  because the source stores a params object that omits review_count, so that
  field ranges over undefined / NaN / null / number at run time.
* The stored fsrs_params string of a word is modelled by FsrsBlob: the field
  can be missing (absent), can fail JSON.parse (malformed), or parses to an
  FSRSParams record (parsed).
* Randomness in getWordsForPractice (Array.sort with a random comparator,
  which always yields some permutation of the array) is modelled by an
  explicit shuffle parameter; theorems quantify over every permutation.
-/

namespace VocabFsrs

/-- Review outcomes, enum ReviewResult of fsrsService (AGAIN=1 .. EASY=4). -/
inductive ReviewResult where
  | AGAIN
  | HARD
  | GOOD
  | EASY
deriving DecidableEq, Repr

/-- The JS values the review_count field can actually hold at run time:
a number, NaN (from undefined + 1), null (JSON serialization of NaN), or
undefined (the field is missing, as in the object literal of saveWord). -/
inductive JVal where
  | num (n : ℤ)
  | nan
  | nullv
  | undef
deriving DecidableEq, Repr

/-- JS evaluation of review_count + 1: undefined + 1 = NaN, NaN + 1 = NaN,
null + 1 = 1 (null coerces to 0), n + 1 ordinary addition. -/
def jsuccCount : JVal → JVal
  | JVal.num n => JVal.num (n + 1)
  | JVal.nan => JVal.nan
  | JVal.nullv => JVal.num 1
  | JVal.undef => JVal.nan

/-- Round trip of the review_count field through JSON.stringify / JSON.parse:
JSON.stringify turns NaN into null; null survives; a number survives; an
undefined field is omitted by stringify and reads back as undefined. -/
def jsonRoundCount : JVal → JVal
  | JVal.num n => JVal.num n
  | JVal.nan => JVal.nullv
  | JVal.nullv => JVal.nullv
  | JVal.undef => JVal.undef

/-- Interface FSRSParams of fsrsService. difficulty, stability and
retrievability are JS numbers (modelled as reals); last_review is an
optional timestamp; next_review a timestamp; review_count is modelled by
JVal because the params object written by saveWord omits this field. -/
structure FSRSParams where
  difficulty : ℝ
  stability : ℝ
  retrievability : ℝ
  last_review : Option ℤ
  next_review : ℤ
  review_count : JVal

/-- The stored fsrs_params string of a SavedWord: the optional field can be
missing, hold a string JSON.parse throws on, or parse to an FSRSParams. -/
inductive FsrsBlob where
  | absent
  | malformed
  | parsed (p : FSRSParams)

/-- Interface SavedWord of the vocabulary types module. -/
structure Word where
  id : ℕ
  text : String
  phonetic : String
  createdAt : ℤ
  fsrs_params : FsrsBlob

/-- The mutable state of LocalDatabaseService that the scheduling claims
touch: the words array, plus a counter of saveToLocalStorage persistence
writes (each write also dispatches the datachanged event exactly once). -/
structure DB where
  words : List Word
  writes : ℕ

/-- Milliseconds of one calendar day; setDate(getDate() + d) is modelled as
adding d * dayMs to the timestamp. -/
def dayMs : ℤ := 86400000

/-- JS Math.round: round half up, the floor of x + 0.5. -/
noncomputable def jsRound (x : ℝ) : ℤ := ⌊x + 0.5⌋

/-- FSRSService.initializeParams: difficulty 0, stability
INITIAL_STABILITY = 0.4, retrievability 1, no last review, next review one
day from now, review_count 0. -/
def initializeParams (now : ℤ) : FSRSParams :=
  { difficulty := 0
    stability := 0.4
    retrievability := 1
    last_review := none
    next_review := now + dayMs
    review_count := JVal.num 0 }

/-- The params object literal that LocalDatabaseService.saveWord serializes
for a newly registered word: difficulty 0, stability 0, retrievability 1,
last_review null, next_review now, and no review_count field at all. -/
def saveWordParams (now : ℤ) : FSRSParams :=
  { difficulty := 0
    stability := 0
    retrievability := 1
    last_review := none
    next_review := now
    review_count := JVal.undef }

/-- FSRSService.getDifficultyChange. -/
def getDifficultyChange : ReviewResult → ℝ
  | ReviewResult.AGAIN => 1.2
  | ReviewResult.HARD => 0.3
  | ReviewResult.GOOD => -0.1
  | ReviewResult.EASY => -0.3

/-- FSRSService.getStabilityIncrease with DIFFICULTY_DECAY = -0.5; the
default branch (reached for AGAIN) returns 0. -/
noncomputable def getStabilityIncrease (result : ReviewResult) (difficulty retrievability : ℝ) : ℝ :=
  let base := 1 - retrievability
  let difficultyFactor := Real.exp (-0.5 * difficulty)
  match result with
  | ReviewResult.HARD => base * 0.5 * difficultyFactor
  | ReviewResult.GOOD => base * 1.0 * difficultyFactor
  | ReviewResult.EASY => base * 1.5 * difficultyFactor
  | ReviewResult.AGAIN => 0

/-- FSRSService.calculateInterval. The AGAIN branch returns 0.25 with the
source comment: review again in 6 hours. The log 0.9 / log 0.9 factor of
the other branch is written as in the source. -/
noncomputable def calculateInterval (stability difficulty : ℝ) (result : ReviewResult) : ℝ :=
  if result = ReviewResult.AGAIN then 0.25
  else
    let baseInterval := stability * (Real.log 0.9 / Real.log 0.9)
    let difficultyMultiplier := Real.exp (-0.1 * difficulty)
    max 1 (baseInterval * difficultyMultiplier)

/-- FSRSService.calculateNextReview. Elapsed days are milliseconds divided
by 86400000; Math.pow(0.9, x) is real exponentiation of 0.9. When
last_review is present and stability is 0 the source divides by zero: JS
yields Infinity and then 0.9 ^ Infinity = 0, while real division by zero in
Lean yields 0; no theorem below evaluates that branch, it is only ever
discussed as the division hazard of claim C2. -/
noncomputable def calculateNextReview (params : FSRSParams) (result : ReviewResult) (now : ℤ) : FSRSParams :=
  let difficulty := max 0 (min 10 (params.difficulty + getDifficultyChange result))
  let retrievability :=
    match params.last_review with
    | some t => (0.9 : ℝ) ^ ((((now : ℝ) - (t : ℝ)) / 86400000) / params.stability)
    | none => params.retrievability
  let stability :=
    if result = ReviewResult.AGAIN then max 0.1 (params.stability * 0.2)
    else params.stability * (1 + getStabilityIncrease result difficulty retrievability)
  let interval := calculateInterval stability difficulty result
  { difficulty := difficulty
    stability := stability
    retrievability := retrievability
    last_review := some now
    next_review := now + jsRound interval * dayMs
    review_count := jsuccCount params.review_count }

/-- Round trip of a params record through JSON.stringify and JSON.parse, as
performed by updateFSRSParams when it stores the record: plain numbers and
the ISO timestamps survive unchanged, review_count goes through
jsonRoundCount. -/
def storeRoundTrip (p : FSRSParams) : FSRSParams :=
  { p with review_count := jsonRoundCount p.review_count }

/-- Replace the fsrs_params of the first word with the given id, as the
mutation through this.words.find does in updateFSRSParams. -/
def setParamsFirst (wordId : ℕ) (p : FSRSParams) : List Word → List Word
  | [] => []
  | w :: rest =>
    if w.id == wordId then { w with fsrs_params := FsrsBlob.parsed p } :: rest
    else w :: setParamsFirst wordId p rest

/-- LocalDatabaseService.updateFSRSParams: store the serialized params on
the word and run saveToLocalStorage (one persistence write, which also
dispatches the datachanged event). -/
def updateFSRSParams (db : DB) (wordId : ℕ) (p : FSRSParams) : DB :=
  { words := setParamsFirst wordId (storeRoundTrip p) db.words
    writes := db.writes + 1 }

/-- Observable control-flow outcome of one recordReview call. The source
function returns undefined on the notFound, cooldown and accepted paths
(signalling notFound and cooldown only on the console) and throws on
parseFailure; this tag records which branch ran, and jsReturn below maps it
to the value the caller actually receives. -/
inductive RecordOutcome where
  | notFound
  | cooldown
  | accepted
  | parseFailure
deriving DecidableEq, Repr

/-- The value recordReview delivers to its caller: the parseFailure branch
rethrows an Error with this message, every other branch resolves with
undefined. -/
def jsReturn : RecordOutcome → Except String Unit
  | RecordOutcome.parseFailure => Except.error "Failed to update FSRS parameters."
  | _ => Except.ok ()

/-- The tail of recordReview once current params are in hand: the cooldown
check (minutes since last review below 50 skips the update and returns),
then calculateNextReview and updateFSRSParams. -/
noncomputable def recordReviewWith (db : DB) (wordId : ℕ) (currentParams : FSRSParams)
    (result : ReviewResult) (now : ℤ) : RecordOutcome × DB :=
  match currentParams.last_review with
  | none =>
      (RecordOutcome.accepted, updateFSRSParams db wordId (calculateNextReview currentParams result now))
  | some t =>
      if ((now : ℚ) - (t : ℚ)) / (1000 * 60) < 50 then (RecordOutcome.cooldown, db)
      else
        (RecordOutcome.accepted, updateFSRSParams db wordId (calculateNextReview currentParams result now))

/-- Dispatch on the stored fsrs_params of the found word: a missing field
falls back to initializeParams, a string JSON.parse throws on lands in the
catch block which rethrows, a parsed record is used as is. -/
noncomputable def recordReviewFound (db : DB) (wordId : ℕ) (word : Word)
    (result : ReviewResult) (now : ℤ) : RecordOutcome × DB :=
  match word.fsrs_params with
  | FsrsBlob.malformed => (RecordOutcome.parseFailure, db)
  | FsrsBlob.absent => recordReviewWith db wordId (initializeParams now) result now
  | FsrsBlob.parsed p => recordReviewWith db wordId p result now

/-- LocalDatabaseService.recordReview. -/
noncomputable def recordReview (db : DB) (wordId : ℕ) (result : ReviewResult) (now : ℤ) :
    RecordOutcome × DB :=
  match db.words.find? (fun w => w.id == wordId) with
  | none => (RecordOutcome.notFound, db)
  | some word => recordReviewFound db wordId word result now

/-- Read back the parsed params stored for a word id. -/
def paramsOf (db : DB) (wordId : ℕ) : Option FSRSParams :=
  match db.words.find? (fun w => w.id == wordId) with
  | none => none
  | some w =>
      match w.fsrs_params with
      | FsrsBlob.parsed p => some p
      | _ => none

/-- The four memory-state buckets of getWordsForPractice. -/
inductive Bucket where
  | fresh
  | due
  | learning
  | mastered
deriving DecidableEq, Repr

/-- Bucketing rule of getWordsForPractice, in the priority order of the
source: missing params or stability 0 mean fresh, then next_review due now,
then stability in (0, 30] means learning, everything else (including a
parse failure, the catch branch) is mastered. -/
noncomputable def bucket (now : ℤ) (w : Word) : Bucket :=
  match w.fsrs_params with
  | FsrsBlob.absent => Bucket.fresh
  | FsrsBlob.malformed => Bucket.mastered
  | FsrsBlob.parsed p =>
      if p.stability = 0 then Bucket.fresh
      else if p.next_review ≤ now then Bucket.due
      else if 0 < p.stability ∧ p.stability ≤ 30 then Bucket.learning
      else Bucket.mastered

/-- Bucket weights used to build the candidate pool: due 4, learning 3,
fresh 2, mastered 1. -/
def bucketWeight : Bucket → ℕ
  | Bucket.due => 4
  | Bucket.learning => 3
  | Bucket.fresh => 2
  | Bucket.mastered => 1

/-- The loop over the shuffled pool of getWordsForPractice: keep the first
occurrence of each id, pushing into finalSelection and then breaking once
its length has reached the limit (the length test runs after the push, so a
limit of 0 still lets one element through). selectedIds always equals the
ids of finalSelection, so membership is tested against the accumulator. -/
def takeDistinct (limit : ℕ) : List Word → List Word → List Word
  | [], acc => acc.reverse
  | w :: rest, acc =>
      if w.id ∈ acc.map Word.id then takeDistinct limit rest acc
      else if limit ≤ acc.length + 1 then (w :: acc).reverse
      else takeDistinct limit rest (w :: acc)

/-- The weighted candidate pool of getWordsForPractice: each bucket list in
source order, each word repeated bucketWeight times. -/
noncomputable def weightedPool (words : List Word) (now : ℤ) : List Word :=
  (words.filter (fun w => bucket now w == Bucket.due)).flatMap (fun w => List.replicate 4 w)
    ++ (words.filter (fun w => bucket now w == Bucket.learning)).flatMap (fun w => List.replicate 3 w)
    ++ (words.filter (fun w => bucket now w == Bucket.fresh)).flatMap (fun w => List.replicate 2 w)
    ++ (words.filter (fun w => bucket now w == Bucket.mastered)).flatMap (fun w => List.replicate 1 w)

/-- LocalDatabaseService.getWordsForPractice. The sort with a random
comparator always produces some permutation of the weighted pool; it is
modelled by the shuffle argument, about which theorems assume only that it
permutes its input. -/
noncomputable def getWordsForPractice (words : List Word) (now : ℤ) (limit : ℕ)
    (shuffle : List Word → List Word) : List Word :=
  if words.length = 0 then []
  else takeDistinct limit (shuffle (weightedPool words now)) []

/-- Calendar-day index of a millisecond timestamp (toDateString day
bucketing, modelled on the UTC day grid). -/
def msDay (ms : ℤ) : ℤ := Int.ediv ms dayMs

/-- The last_review day numbers collected by calculateStreakDays: words
without params and words whose params fail to parse contribute nothing (the
map callback returns null for them), parsed params contribute their
last_review when present. -/
def reviewDays (words : List Word) : List ℤ :=
  (words.filterMap (fun w =>
    match w.fsrs_params with
    | FsrsBlob.parsed p => p.last_review
    | _ => none)).map msDay

/-- Descending sort of the unique review days (sort b - a). -/
def sortDesc (l : List ℤ) : List ℤ := l.insertionSort (· ≥ ·)

/-- The backward walk of calculateStreakDays: count how many further steps
each go exactly one calendar day down; stop at the first gap. -/
def runLen : ℤ → List ℤ → ℕ
  | _, [] => 0
  | cur, d :: rest => if d = cur - 1 then runLen d rest + 1 else 0

/-- Streak computation on the list of review day numbers: zero when there
are no review dates, zero when the most recent unique day is neither today
nor yesterday, otherwise one plus the backward consecutive-day walk. -/
def streakOfDays (days : List ℤ) (today : ℤ) : ℕ :=
  if days.length = 0 then 0
  else
    match sortDesc days.dedup with
    | [] => 0
    | mostRecent :: rest =>
        if mostRecent ≠ today ∧ mostRecent ≠ today - 1 then 0
        else runLen mostRecent rest + 1

/-- LocalDatabaseService.calculateStreakDays, with now the current
timestamp in milliseconds. -/
def calculateStreakDays (words : List Word) (now : ℤ) : ℕ :=
  streakOfDays (reviewDays words) (msDay now)

/-- Memory states reachable in the application: the initializeParams state,
the state saveWord serializes for a newly registered word, any state
produced from a reachable one by calculateNextReview, and the JSON round
trip a state undergoes when it is persisted. -/
inductive Reachable : FSRSParams → Prop where
  | init : ∀ now, Reachable (initializeParams now)
  | registered : ∀ now, Reachable (saveWordParams now)
  | step : ∀ p res now, Reachable p → Reachable (calculateNextReview p res now)
  | stored : ∀ p, Reachable p → Reachable (storeRoundTrip p)

/-- A word as it sits in the words array right after saveWord registered it. -/
def registeredWord (i : ℕ) (t : ℤ) : Word :=
  { id := i
    text := "w"
    phonetic := ""
    createdAt := t
    fsrs_params := FsrsBlob.parsed (saveWordParams t) }

/-- A word whose stored fsrs_params string does not parse. -/
def malformedWord (i : ℕ) : Word :=
  { id := i
    text := "w"
    phonetic := ""
    createdAt := 0
    fsrs_params := FsrsBlob.malformed }

/-- A word with no fsrs_params field at all. -/
def bareWord (i : ℕ) : Word :=
  { id := i
    text := "w"
    phonetic := ""
    createdAt := 0
    fsrs_params := FsrsBlob.absent }

/-- A word carrying an ordinary parsed state whose last review happened at
millisecond 0. -/
def recentWord (i : ℕ) : Word :=
  { id := i
    text := "w"
    phonetic := ""
    createdAt := 0
    fsrs_params := FsrsBlob.parsed
      { difficulty := 0
        stability := 0.4
        retrievability := 1
        last_review := some 0
        next_review := 0
        review_count := JVal.num 1 } }

/-- A word with an ordinary parsed state whose last review happened at the
given millisecond timestamp, used for the streak scenarios. -/
def reviewedWord (i : ℕ) (ms : ℤ) : Word :=
  { id := i
    text := "w"
    phonetic := ""
    createdAt := 0
    fsrs_params := FsrsBlob.parsed
      { difficulty := 0
        stability := 1
        retrievability := 1
        last_review := some ms
        next_review := 0
        review_count := JVal.num 1 } }

/-- A current timestamp sitting on calendar day 100. -/
def demoNow : ℤ := 100 * dayMs

/-- Words reviewed on day 100 (today) and day 99 (yesterday) only. -/
def demoTodayYesterday : List Word :=
  [reviewedWord 1 (100 * dayMs), reviewedWord 2 (99 * dayMs)]

/-- Words reviewed on day 100, day 99 and day 97 (gap at day 98). -/
def demoWithGap : List Word :=
  [reviewedWord 1 (100 * dayMs), reviewedWord 2 (99 * dayMs), reviewedWord 3 (97 * dayMs)]

/-- A word whose only review was on day 97, neither today nor yesterday. -/
def demoStale : List Word := [reviewedWord 1 (97 * dayMs)]

/-- JS Math.round of the 0.25-day AGAIN interval is 0 whole days. -/
theorem jsRound_quarter : jsRound (0.25 : ℝ) = 0 := by
  have h : (0.25 : ℝ) + 0.5 = 0.75 := by norm_num
  rw [jsRound, h]
  rw [Int.floor_eq_zero_iff]
  constructor <;> norm_num

/-- A non-AGAIN update multiplies stability, so zero stability stays zero. -/
theorem calcNext_stability_of_zero (p : FSRSParams) (res : ReviewResult) (now : ℤ)
    (hs : p.stability = 0) (hres : res ≠ ReviewResult.AGAIN) :
    (calculateNextReview p res now).stability = 0 := by
  simp [calculateNextReview, hs, hres]

/-- Claim C10: for every memory state with last_review absent and
retrievability equal to 1, applying the update with outcome Hard, Good or
Easy leaves stability exactly unchanged, because the stability increase
factor is a multiple of 1 - retrievability = 0. -/
theorem c10_first_graded_review_keeps_stability (p : FSRSParams) (res : ReviewResult) (now : ℤ)
    (hl : p.last_review = none) (hr : p.retrievability = 1)
    (hres : res = ReviewResult.HARD ∨ res = ReviewResult.GOOD ∨ res = ReviewResult.EASY) :
    (calculateNextReview p res now).stability = p.stability := by
  rcases hres with h | h | h <;> subst h <;>
    simp [calculateNextReview, hl, hr, getStabilityIncrease]

/-- Witness for C10 at the freshly initialized state and outcome Good. -/
theorem c10_first_graded_review_keeps_stability_witness :
    (calculateNextReview (initializeParams 0) ReviewResult.GOOD 7).stability
      = (initializeParams 0).stability :=
  c10_first_graded_review_keeps_stability (initializeParams 0) ReviewResult.GOOD 7
    rfl rfl (Or.inr (Or.inl rfl))

/-- Claim C5: the update computes the new difficulty as
clamp(difficulty + delta(outcome), 0, 10) with the four stated deltas, and
every reachable state has difficulty between 0 and 10. -/
theorem c5_difficulty_clamped (p : FSRSParams) (res : ReviewResult) (now : ℤ)
    (q : FSRSParams) (hq : Reachable q) :
    (calculateNextReview p res now).difficulty
        = max 0 (min 10 (p.difficulty + getDifficultyChange res))
      ∧ getDifficultyChange ReviewResult.AGAIN = 1.2
      ∧ getDifficultyChange ReviewResult.HARD = 0.3
      ∧ getDifficultyChange ReviewResult.GOOD = -0.1
      ∧ getDifficultyChange ReviewResult.EASY = -0.3
      ∧ 0 ≤ q.difficulty ∧ q.difficulty ≤ 10 := by
  refine ⟨rfl, rfl, rfl, rfl, rfl, ?_⟩
  induction hq with
  | init now => exact ⟨by norm_num [initializeParams], by norm_num [initializeParams]⟩
  | registered now => exact ⟨by norm_num [saveWordParams], by norm_num [saveWordParams]⟩
  | step p res now hp ih =>
      have hdiff : (calculateNextReview p res now).difficulty
          = max 0 (min 10 (p.difficulty + getDifficultyChange res)) := rfl
      rw [hdiff]
      exact ⟨le_max_left _ _, max_le (by norm_num) (min_le_left _ _)⟩
  | stored p hp ih => exact ih

/-- Witness for C5 at the initialized state and outcome Good. -/
theorem c5_difficulty_clamped_witness :
    (calculateNextReview (initializeParams 0) ReviewResult.GOOD 7).difficulty
        = max 0 (min 10 ((initializeParams 0).difficulty + getDifficultyChange ReviewResult.GOOD))
      ∧ getDifficultyChange ReviewResult.AGAIN = 1.2
      ∧ getDifficultyChange ReviewResult.HARD = 0.3
      ∧ getDifficultyChange ReviewResult.GOOD = -0.1
      ∧ getDifficultyChange ReviewResult.EASY = -0.3
      ∧ 0 ≤ (initializeParams 0).difficulty ∧ (initializeParams 0).difficulty ≤ 10 :=
  c5_difficulty_clamped (initializeParams 0) ReviewResult.GOOD 7
    (initializeParams 0) (Reachable.init 0)

/-- Claim C2, evaluated at the failing input: a word registered by saveWord
carries stability 0, its first review with outcome Good is accepted, and
the stored stability afterwards is still exactly 0, not at least 0.1; the
update multiplies stability, so only an Again outcome can lift it to 0.1. -/
theorem c2_registered_word_keeps_zero_stability (t0 tnow : ℤ) :
    (recordReview (DB.mk [registeredWord 1 t0] 0) 1 ReviewResult.GOOD tnow).1
        = RecordOutcome.accepted
      ∧ (paramsOf (recordReview (DB.mk [registeredWord 1 t0] 0) 1 ReviewResult.GOOD tnow).2 1).map
            FSRSParams.stability = some 0
      ∧ ¬ ((0.1 : ℝ) ≤ 0) := by
  have hs : (calculateNextReview
      { difficulty := 0, stability := 0, retrievability := (1 : ℝ), last_review := none,
        next_review := t0, review_count := JVal.undef } ReviewResult.GOOD tnow).stability = 0 :=
    calcNext_stability_of_zero _ _ _ rfl (by decide)
  refine ⟨rfl, ?_, by norm_num⟩
  simp [recordReview, registeredWord, List.find?, recordReviewFound, recordReviewWith,
    saveWordParams, updateFSRSParams, setParamsFirst, paramsOf, storeRoundTrip, hs]

/-- Claim C4, evaluated on the code: an Again outcome collapses stability
to max(0.1, 0.2 * S) and the interval is the constant 0.25 days, but
Math.round(0.25) = 0 whole days, so the stored next_review equals now
itself rather than a time about 6 hours later. -/
theorem c4_again_collapse_next_review_is_now (p : FSRSParams) (now : ℤ) (s d : ℝ) :
    (calculateNextReview p ReviewResult.AGAIN now).stability = max 0.1 (p.stability * 0.2)
      ∧ calculateInterval s d ReviewResult.AGAIN = 0.25
      ∧ (calculateNextReview p ReviewResult.AGAIN now).next_review = now := by
  refine ⟨by simp [calculateNextReview], by simp [calculateInterval], ?_⟩
  have hn : (calculateNextReview p ReviewResult.AGAIN now).next_review
      = now + jsRound (calculateInterval
          (max 0.1 (p.stability * 0.2))
          (max 0 (min 10 (p.difficulty + getDifficultyChange ReviewResult.AGAIN)))
          ReviewResult.AGAIN) * dayMs := rfl
  rw [hn]
  have hi : calculateInterval
      (max 0.1 (p.stability * 0.2))
      (max 0 (min 10 (p.difficulty + getDifficultyChange ReviewResult.AGAIN)))
      ReviewResult.AGAIN = (0.25 : ℝ) := by simp [calculateInterval]
  rw [hi, jsRound_quarter]
  ring

/-- Claim C6, evaluated at the failing input: the params object saveWord
serializes has no review_count field, so the first accepted review of a
just-registered word computes undefined + 1 = NaN, which is stored as JSON
null; the stored review_count after that accepted review is not an integer
at all, in particular not review_count_before + 1. On states that do carry
a numeric count the update adds exactly 1. -/
theorem c6_first_review_count_is_not_an_integer (t0 tnow : ℤ) :
    (recordReview (DB.mk [registeredWord 1 t0] 0) 1 ReviewResult.GOOD tnow).1
        = RecordOutcome.accepted
      ∧ (paramsOf (recordReview (DB.mk [registeredWord 1 t0] 0) 1 ReviewResult.GOOD tnow).2 1).map
            FSRSParams.review_count = some JVal.nullv
      ∧ (∀ n : ℤ, JVal.nullv ≠ JVal.num n)
      ∧ (∀ n : ℤ, jsuccCount (JVal.num n) = JVal.num (n + 1)) := by
  refine ⟨rfl, ?_, by intro n; simp, by intro n; simp [jsuccCount]⟩
  simp [recordReview, registeredWord, List.find?, recordReviewFound, recordReviewWith,
    saveWordParams, updateFSRSParams, setParamsFirst, paramsOf, storeRoundTrip,
    calculateNextReview, jsuccCount, jsonRoundCount]

/-- Claim C1: when the stored state of the word parses and carries a
last_review less than 50 minutes before now, recordReview takes the
cooldown branch and returns with the database bit-for-bit unchanged: the
words array, every stored field in it, and the persistence write counter
are the same value, so no saveToLocalStorage write happened. -/
theorem c1_cooldown_rejects_without_mutation (db : DB) (i : ℕ) (res : ReviewResult) (now : ℤ)
    (w : Word) (p : FSRSParams) (t : ℤ)
    (hf : db.words.find? (fun x => x.id == i) = some w)
    (hb : w.fsrs_params = FsrsBlob.parsed p)
    (hl : p.last_review = some t)
    (hc : ((now : ℚ) - (t : ℚ)) / (1000 * 60) < 50) :
    recordReview db i res now = (RecordOutcome.cooldown, db) := by
  simp [recordReview, hf, recordReviewFound, hb, recordReviewWith, hl, hc]

/-- Witness for C1: a word last reviewed 10 minutes before now is rejected
for cooldown with the database unchanged. -/
theorem c1_cooldown_rejects_without_mutation_witness :
    recordReview (DB.mk [recentWord 1] 0) 1 ReviewResult.GOOD 600000
      = (RecordOutcome.cooldown, DB.mk [recentWord 1] 0) :=
  c1_cooldown_rejects_without_mutation (DB.mk [recentWord 1] 0) 1 ReviewResult.GOOD 600000
    (recentWord 1) _ 0 rfl rfl rfl (by norm_num)

/-- Counterexample to claim C3: on a word whose stored state fails to
parse, recordReview does not fall back to initialize(); JSON.parse throws,
the catch block rethrows, the caller receives the error and no update of
any kind is performed. -/
theorem c3_counterexample_malformed_state_throws :
    recordReview (DB.mk [malformedWord 1] 0) 1 ReviewResult.GOOD 0
        = (RecordOutcome.parseFailure, DB.mk [malformedWord 1] 0)
      ∧ RecordOutcome.parseFailure ≠ RecordOutcome.accepted
      ∧ jsReturn RecordOutcome.parseFailure
          = Except.error "Failed to update FSRS parameters." :=
  ⟨rfl, by decide, rfl⟩

/-- Claim C3 as amended: only a word whose fsrs_params field is absent is
treated as having no prior state; for it recordReview uses
initializeParams as the base and performs the accepted update, while a
present-but-unparseable state escalates as a thrown error (see the
counterexample). -/
theorem c3_absent_state_initializes_and_accepts (db : DB) (i : ℕ) (res : ReviewResult) (now : ℤ)
    (w : Word)
    (hf : db.words.find? (fun x => x.id == i) = some w)
    (hb : w.fsrs_params = FsrsBlob.absent) :
    recordReview db i res now
      = (RecordOutcome.accepted,
          updateFSRSParams db i (calculateNextReview (initializeParams now) res now)) := by
  simp [recordReview, hf, recordReviewFound, hb, recordReviewWith, initializeParams]

/-- Witness for the amended C3 on a one-word database with no stored
params. -/
theorem c3_absent_state_initializes_and_accepts_witness :
    recordReview (DB.mk [bareWord 1] 0) 1 ReviewResult.GOOD 5
      = (RecordOutcome.accepted,
          updateFSRSParams (DB.mk [bareWord 1] 0) 1
            (calculateNextReview (initializeParams 5) ReviewResult.GOOD 5)) :=
  c3_absent_state_initializes_and_accepts (DB.mk [bareWord 1] 0) 1 ReviewResult.GOOD 5
    (bareWord 1) rfl rfl

/-- Counterexample to claim C9: the caller-visible return value of
recordReview for a missing word equals the return value of an accepted
review (both resolve with undefined; the miss is only logged), so
Failed(NotFound) is not distinguishable by the caller; moreover the
malformed-state path does escalate as a thrown fault. -/
theorem c9_counterexample_return_indistinguishable :
    (recordReview (DB.mk [bareWord 1] 0) 99 ReviewResult.GOOD 0).1 = RecordOutcome.notFound
      ∧ (recordReview (DB.mk [bareWord 1] 0) 1 ReviewResult.GOOD 0).1 = RecordOutcome.accepted
      ∧ jsReturn (recordReview (DB.mk [bareWord 1] 0) 99 ReviewResult.GOOD 0).1
          = jsReturn (recordReview (DB.mk [bareWord 1] 0) 1 ReviewResult.GOOD 0).1
      ∧ jsReturn RecordOutcome.parseFailure
          = Except.error "Failed to update FSRS parameters." :=
  ⟨rfl, rfl, rfl, rfl⟩

/-- Claim C9 as amended: for an id with no record, recordReview logs,
performs no mutation at all and returns normally with undefined, the same
value every non-throwing path returns. -/
theorem c9_not_found_is_silent_no_mutation (db : DB) (i : ℕ) (res : ReviewResult) (now : ℤ)
    (hf : db.words.find? (fun x => x.id == i) = none) :
    recordReview db i res now = (RecordOutcome.notFound, db)
      ∧ jsReturn RecordOutcome.notFound = Except.ok () := by
  refine ⟨?_, rfl⟩
  simp [recordReview, hf]

/-- Witness for the amended C9 on the empty database. -/
theorem c9_not_found_is_silent_no_mutation_witness :
    recordReview (DB.mk [] 0) 1 ReviewResult.GOOD 0 = (RecordOutcome.notFound, DB.mk [] 0)
      ∧ jsReturn RecordOutcome.notFound = Except.ok () :=
  c9_not_found_is_silent_no_mutation (DB.mk [] 0) 1 ReviewResult.GOOD 0 rfl

/-- The selection loop preserves id-distinctness of the accumulator. -/
theorem takeDistinct_nodup (limit : ℕ) (l : List Word) :
    ∀ acc : List Word, (acc.map Word.id).Nodup →
      ((takeDistinct limit l acc).map Word.id).Nodup := by
  induction l with
  | nil =>
      intro acc h
      simpa [takeDistinct, List.map_reverse, List.nodup_reverse] using h
  | cons w rest ih =>
      intro acc h
      rw [takeDistinct]
      by_cases hmem : w.id ∈ acc.map Word.id
      · rw [if_pos hmem]
        exact ih acc h
      · rw [if_neg hmem]
        by_cases hlim : limit ≤ acc.length + 1
        · rw [if_pos hlim]
          simp only [List.map_reverse, List.nodup_reverse, List.map_cons]
          exact List.nodup_cons.mpr ⟨hmem, h⟩
        · rw [if_neg hlim]
          refine ih (w :: acc) ?_
          simp only [List.map_cons]
          exact List.nodup_cons.mpr ⟨hmem, h⟩

/-- While the accumulator is still below the limit, the selection loop
never returns more than limit words. -/
theorem takeDistinct_length (limit : ℕ) (l : List Word) :
    ∀ acc : List Word, acc.length < limit →
      (takeDistinct limit l acc).length ≤ limit := by
  induction l with
  | nil =>
      intro acc h
      simpa [takeDistinct] using Nat.le_of_lt h
  | cons w rest ih =>
      intro acc h
      rw [takeDistinct]
      by_cases hmem : w.id ∈ acc.map Word.id
      · rw [if_pos hmem]
        exact ih acc h
      · rw [if_neg hmem]
        by_cases hlim : limit ≤ acc.length + 1
        · rw [if_pos hlim]
          simpa using Nat.succ_le_of_lt h
        · rw [if_neg hlim]
          exact ih (w :: acc) (by simp; omega)

/-- When the number of distinct ids in play is at most the limit, the
selection loop collects exactly the distinct ids of accumulator and input. -/
theorem takeDistinct_toFinset (limit : ℕ) (l : List Word) :
    ∀ acc : List Word, (acc.map Word.id).Nodup →
      ((acc.map Word.id) ++ (l.map Word.id)).toFinset.card ≤ limit →
      ((takeDistinct limit l acc).map Word.id).toFinset
        = ((acc.map Word.id) ++ (l.map Word.id)).toFinset := by
  induction l with
  | nil =>
      intro acc hnd hcard
      simp [takeDistinct, List.map_reverse]
  | cons w rest ih =>
      intro acc hnd hcard
      rw [takeDistinct]
      by_cases hmem : w.id ∈ acc.map Word.id
      · rw [if_pos hmem]
        have habs : ((acc.map Word.id) ++ ((w :: rest).map Word.id)).toFinset
            = ((acc.map Word.id) ++ (rest.map Word.id)).toFinset := by
          simp only [List.map_cons, List.toFinset_append, List.toFinset_cons,
            Finset.union_insert]
          rw [Finset.insert_eq_self.mpr]
          exact Finset.mem_union_left _ (List.mem_toFinset.mpr hmem)
        rw [habs] at hcard ⊢
        exact ih acc hnd hcard
      · rw [if_neg hmem]
        have hswap : ((acc.map Word.id) ++ ((w :: rest).map Word.id)).toFinset
            = (((w :: acc).map Word.id) ++ (rest.map Word.id)).toFinset := by
          simp only [List.map_cons, List.toFinset_append, List.toFinset_cons,
            Finset.union_insert, Finset.insert_union]
        by_cases hlim : limit ≤ acc.length + 1
        · rw [if_pos hlim]
          have hsub : (((w :: acc).reverse.map Word.id).toFinset : Finset ℕ)
              ⊆ ((acc.map Word.id) ++ ((w :: rest).map Word.id)).toFinset := by
            intro x hx
            simp only [List.map_reverse, List.toFinset_reverse, List.map_cons,
              List.toFinset_cons, Finset.mem_insert, List.mem_toFinset] at hx
            simp only [List.toFinset_append, List.map_cons, List.toFinset_cons,
              Finset.mem_union, Finset.mem_insert, List.mem_toFinset]
            rcases hx with rfl | hx
            · exact Or.inr (Or.inl rfl)
            · exact Or.inl hx
          have hcardge : ((acc.map Word.id) ++ ((w :: rest).map Word.id)).toFinset.card
              ≤ (((w :: acc).reverse.map Word.id).toFinset : Finset ℕ).card := by
            have hnd2 : ((w :: acc).map Word.id).Nodup := List.nodup_cons.mpr ⟨hmem, hnd⟩
            have h1 : (((w :: acc).reverse.map Word.id).toFinset : Finset ℕ).card
                = acc.length + 1 := by
              rw [List.map_reverse, List.toFinset_reverse,
                List.toFinset_card_of_nodup hnd2]
              simp
            rw [h1]
            exact le_trans hcard hlim
          exact Finset.eq_of_subset_of_card_le hsub hcardge
        · rw [if_neg hlim]
          have hnd2 : ((w :: acc).map Word.id).Nodup := List.nodup_cons.mpr ⟨hmem, hnd⟩
          rw [hswap] at hcard ⊢
          exact ih (w :: acc) hnd2 hcard

/-- Every word lands in exactly one bucket with weight at least one, so the
weighted pool contains exactly the words of the input list. -/
theorem mem_weightedPool (words : List Word) (now : ℤ) (w : Word) :
    w ∈ weightedPool words now ↔ w ∈ words := by
  simp only [weightedPool, List.mem_append, List.mem_flatMap, List.mem_filter,
    List.mem_replicate]
  constructor
  · rintro (((⟨a, ⟨ha, _⟩, _, rfl⟩ | ⟨a, ⟨ha, _⟩, _, rfl⟩) | ⟨a, ⟨ha, _⟩, _, rfl⟩) |
      ⟨a, ⟨ha, _⟩, _, rfl⟩) <;> exact ha
  · intro h
    cases hb : bucket now w with
    | due => exact Or.inl (Or.inl (Or.inl ⟨w, ⟨h, by simp [hb]⟩, by norm_num, rfl⟩))
    | learning => exact Or.inl (Or.inl (Or.inr ⟨w, ⟨h, by simp [hb]⟩, by norm_num, rfl⟩))
    | fresh => exact Or.inl (Or.inr ⟨w, ⟨h, by simp [hb]⟩, by norm_num, rfl⟩)
    | mastered => exact Or.inr ⟨w, ⟨h, by simp [hb]⟩, by norm_num, rfl⟩

/-- The ids of the shuffled weighted pool form the same finite set as the
ids of the word list. -/
theorem shuffled_pool_id_toFinset (words : List Word) (now : ℤ)
    (shuffle : List Word → List Word) (hshuffle : ∀ l, (shuffle l).Perm l) :
    ((shuffle (weightedPool words now)).map Word.id).toFinset
      = (words.map Word.id).toFinset := by
  have hperm : ((shuffle (weightedPool words now)).map Word.id).toFinset
      = ((weightedPool words now).map Word.id).toFinset :=
    List.toFinset_eq_of_perm _ _ ((hshuffle (weightedPool words now)).map Word.id)
  rw [hperm]
  ext x
  simp only [List.mem_toFinset, List.mem_map]
  constructor
  · rintro ⟨a, ha, rfl⟩
    exact ⟨a, (mem_weightedPool words now a).mp ha, rfl⟩
  · rintro ⟨a, ha, rfl⟩
    exact ⟨a, (mem_weightedPool words now a).mpr ha, rfl⟩

/-- Claim C7 as amended: for any word set with distinct ids, any outcome of
the random shuffle and any limit, the practice selection is id-distinct; it
has size at most limit provided limit is at least 1 (with limit 0 and a
nonempty set it returns one word, see the counterexample, because the
length check runs only after the first push); if the number of distinct
items is at most the limit the selection covers exactly the full distinct
id set; and an empty word set yields the empty selection, not an error. -/
theorem c7_selection_distinct_bounded_complete (words : List Word) (now : ℤ) (limit : ℕ)
    (shuffle : List Word → List Word)
    (hshuffle : ∀ l, (shuffle l).Perm l)
    (hids : (words.map Word.id).Nodup) :
    ((getWordsForPractice words now limit shuffle).map Word.id).Nodup
      ∧ (1 ≤ limit → (getWordsForPractice words now limit shuffle).length ≤ limit)
      ∧ (words.length ≤ limit →
          ((getWordsForPractice words now limit shuffle).map Word.id).toFinset
            = (words.map Word.id).toFinset)
      ∧ (words = [] → getWordsForPractice words now limit shuffle = []) := by
  by_cases hw : words.length = 0
  · have hnil : words = [] := List.length_eq_zero.mp hw
    subst hnil
    refine ⟨?_, ?_, ?_, ?_⟩ <;> simp [getWordsForPractice]
  · have hsel : getWordsForPractice words now limit shuffle
        = takeDistinct limit (shuffle (weightedPool words now)) [] := by
      rw [getWordsForPractice, if_neg hw]
    refine ⟨?_, ?_, ?_, ?_⟩
    · rw [hsel]
      exact takeDistinct_nodup limit _ [] (by simp)
    · intro hlim
      rw [hsel]
      exact takeDistinct_length limit _ [] (by simpa using hlim)
    · intro hcard
      rw [hsel]
      have hfin := shuffled_pool_id_toFinset words now shuffle hshuffle
      have hc : (([] : List Word).map Word.id
          ++ ((shuffle (weightedPool words now)).map Word.id)).toFinset.card ≤ limit := by
        simp only [List.map_nil, List.nil_append]
        rw [hfin, List.toFinset_card_of_nodup hids]
        simpa using hcard
      have := takeDistinct_toFinset limit (shuffle (weightedPool words now)) [] (by simp) hc
      rw [this]
      simpa using hfin
    · intro h
      exact absurd (by simp [h]) hw

/-- Witness for the amended C7 on a one-word set with the identity shuffle
and limit 3. -/
theorem c7_selection_witness :
    ((getWordsForPractice [bareWord 2] 0 3 (fun l => l)).map Word.id).Nodup
      ∧ (1 ≤ 3 → (getWordsForPractice [bareWord 2] 0 3 (fun l => l)).length ≤ 3)
      ∧ ([bareWord 2].length ≤ 3 →
          ((getWordsForPractice [bareWord 2] 0 3 (fun l => l)).map Word.id).toFinset
            = ([bareWord 2].map Word.id).toFinset)
      ∧ ([bareWord 2] = [] → getWordsForPractice [bareWord 2] 0 3 (fun l => l) = []) :=
  c7_selection_distinct_bounded_complete [bareWord 2] 0 3 (fun l => l)
    (fun l => List.Perm.refl l) (by simp)

/-- Counterexample to claim C7: with limit 0 and one stored word the
selection returns that word, so its size exceeds the limit; the length
check of the loop runs only after the first word has been pushed. -/
theorem c7_counterexample_limit_zero :
    getWordsForPractice [bareWord 1] 0 0 (fun l => l) = [bareWord 1]
      ∧ ¬ ((getWordsForPractice [bareWord 1] 0 0 (fun l => l)).length ≤ 0) := by
  have h1 : getWordsForPractice [bareWord 1] 0 0 (fun l => l) = [bareWord 1] := rfl
  refine ⟨h1, ?_⟩
  rw [h1]
  simp

/-- A weakly descending sorted list without duplicates is strictly
descending. -/
theorem sorted_gt_of_ge_nodup (l : List ℤ) (hs : List.Sorted (· ≥ ·) l) (hn : l.Nodup) :
    List.Sorted (· > ·) l :=
  (hs.and hn).imp (fun h => lt_of_le_of_ne h.1 (Ne.symm h.2))

/-- Specification of the backward walk: on a strictly descending list whose
entries all lie below cur, the walk consumes exactly the maximal block of
values cur - 1, cur - 2, ..., and the next value down is absent. -/
theorem runLen_spec (l : List ℤ) : ∀ cur : ℤ, List.Sorted (· > ·) l → (∀ x ∈ l, x < cur) →
    (∀ i : ℕ, 1 ≤ i → i ≤ runLen cur l → cur - (i : ℤ) ∈ l)
      ∧ cur - ((runLen cur l : ℤ) + 1) ∉ l := by
  induction l with
  | nil =>
      intro cur _ _
      constructor
      · intro i h1 h2
        simp only [runLen] at h2
        exact absurd (le_trans h1 h2) (by omega)
      · simp
  | cons d rest ih =>
      intro cur hs hlt
      have hs0 : List.Sorted (· > ·) rest := hs.of_cons
      have hdgt : ∀ x ∈ rest, x < d := List.rel_of_sorted_cons hs
      by_cases hd : d = cur - 1
      · obtain ⟨ih1, ih2⟩ := ih d hs0 hdgt
        constructor
        · intro i h1 h2
          rw [runLen, if_pos hd] at h2
          by_cases hi1 : i = 1
          · subst hi1
            have hval : cur - ((1 : ℕ) : ℤ) = d := by
              rw [hd]
              push_cast
              ring
            rw [hval]
            exact List.mem_cons_self d rest
          · have hle : i - 1 ≤ runLen d rest := by omega
            have hmem := ih1 (i - 1) (by omega) hle
            have hval : d - ((i - 1 : ℕ) : ℤ) = cur - (i : ℤ) := by
              have hcast : ((i - 1 : ℕ) : ℤ) = (i : ℤ) - 1 := by omega
              rw [hcast, hd]
              ring
            exact List.mem_cons_of_mem d (hval ▸ hmem)
        · rw [runLen, if_pos hd]
          intro hmem
          rcases List.mem_cons.mp hmem with heq | hmem2
          · rw [hd] at heq
            push_cast at heq
            omega
          · have hval : cur - (((runLen d rest + 1 : ℕ) : ℤ) + 1)
                = d - ((runLen d rest : ℤ) + 1) := by
              rw [hd]
              push_cast
              ring
            exact ih2 (hval ▸ hmem2)
      · constructor
        · intro i h1 h2
          rw [runLen, if_neg hd] at h2
          exact absurd (le_trans h1 h2) (by omega)
        · rw [runLen, if_neg hd]
          intro hmem
          rcases List.mem_cons.mp hmem with heq | hmem2
          · push_cast at heq
            exact hd (by omega)
          · have h3 := hlt d (List.mem_cons_self d rest)
            have h4 := hdgt _ hmem2
            push_cast at h4
            omega

/-- Full characterization of streakOfDays on a nonempty day list with
maximum M: zero when M is neither today nor yesterday, and otherwise the
streak is at least 1, the days M, M-1, ..., M-(streak-1) all carry a
review, and day M-streak does not. -/
theorem streakOfDays_spec (days : List ℤ) (today M : ℤ)
    (hM : M ∈ days) (hmax : ∀ x ∈ days, x ≤ M) :
    (M ≠ today → M ≠ today - 1 → streakOfDays days today = 0)
      ∧ ((M = today ∨ M = today - 1) →
          1 ≤ streakOfDays days today
            ∧ (∀ i : ℕ, (i : ℤ) < (streakOfDays days today : ℤ) → M - (i : ℤ) ∈ days)
            ∧ M - (streakOfDays days today : ℤ) ∉ days) := by
  have hne : days ≠ [] := by
    intro h
    rw [h] at hM
    exact absurd hM (List.not_mem_nil M)
  have hlen : ¬ days.length = 0 := by simpa [List.length_eq_zero] using hne
  have hperm : (sortDesc days.dedup).Perm days.dedup := List.perm_insertionSort _ _
  have humem : ∀ x : ℤ, x ∈ sortDesc days.dedup ↔ x ∈ days := by
    intro x
    rw [hperm.mem_iff, List.mem_dedup]
  have hnodup : (sortDesc days.dedup).Nodup := hperm.nodup_iff.mpr days.nodup_dedup
  have hsorted : List.Sorted (· ≥ ·) (sortDesc days.dedup) := List.sorted_insertionSort _ _
  have hstrict : List.Sorted (· > ·) (sortDesc days.dedup) :=
    sorted_gt_of_ge_nodup _ hsorted hnodup
  obtain ⟨h0, t, hcons⟩ : ∃ h0 t, sortDesc days.dedup = h0 :: t := by
    cases hc : sortDesc days.dedup with
    | nil =>
        rw [hc] at humem
        exact absurd ((humem M).mpr hM) (List.not_mem_nil M)
    | cons a b => exact ⟨a, b, rfl⟩
  have hsc0 : List.Sorted (· > ·) (h0 :: t) := by
    rw [← hcons]
    exact hstrict
  have hhead : h0 = M := by
    refine le_antisymm (hmax h0 ((humem h0).mp (by rw [hcons]; exact List.mem_cons_self h0 t))) ?_
    have hMu : M ∈ h0 :: t := by
      rw [← hcons]
      exact (humem M).mpr hM
    rcases List.mem_cons.mp hMu with heq | hMt
    · exact le_of_eq heq
    · exact le_of_lt (List.rel_of_sorted_cons hsc0 M hMt)
  rw [hhead] at hcons hsc0
  have hstreak_eq : streakOfDays days today
      = if M ≠ today ∧ M ≠ today - 1 then 0 else runLen M t + 1 := by
    rw [streakOfDays, if_neg hlen, hcons]
  have hst : List.Sorted (· > ·) t := hsc0.of_cons
  have hlt : ∀ x ∈ t, x < M := List.rel_of_sorted_cons hsc0
  obtain ⟨hin, hout⟩ := runLen_spec t M hst hlt
  constructor
  · intro h1 h2
    rw [hstreak_eq, if_pos ⟨h1, h2⟩]
  · intro hMor
    have hif : ¬ (M ≠ today ∧ M ≠ today - 1) := by
      rcases hMor with heq | heq <;> [exact fun hc => hc.1 heq ; exact fun hc => hc.2 heq]
    rw [hstreak_eq, if_neg hif]
    refine ⟨Nat.le_add_left 1 _, ?_, ?_⟩
    · intro i hi
      by_cases hi0 : i = 0
      · subst hi0
        simpa using hM
      · have h1i : 1 ≤ i := Nat.one_le_iff_ne_zero.mpr hi0
        have hle : i ≤ runLen M t := by
          push_cast at hi
          omega
        refine (humem _).mp ?_
        rw [hcons]
        exact List.mem_cons_of_mem M (hin i h1i hle)
    · intro hcontra
      have hmem : M - ((runLen M t + 1 : ℕ) : ℤ) ∈ M :: t := by
        rw [← hcons]
        exact (humem _).mpr hcontra
      rcases List.mem_cons.mp hmem with heq | hmem2
      · push_cast at heq
        omega
      · refine hout ?_
        have hvv : M - ((runLen M t + 1 : ℕ) : ℤ) = M - ((runLen M t : ℤ) + 1) := by
          push_cast
          ring
        exact hvv ▸ hmem2

/-- Claim C8: calculateStreakDays returns 0 when there are no recorded
reviews; returns 0 when the most recent unique review day is neither today
nor yesterday; otherwise it returns the length of the maximal run of
consecutive calendar days walking backward from the most recent day (every
day of the run has a review and the day just below the run has none); in
particular reviews on today and yesterday only give 2, and reviews on
today, yesterday and three days ago also give 2. -/
theorem c8_streak_characterization :
    (∀ (words : List Word) (now : ℤ), reviewDays words = [] → calculateStreakDays words now = 0)
      ∧ (∀ (words : List Word) (now M : ℤ), M ∈ reviewDays words →
          (∀ x ∈ reviewDays words, x ≤ M) → M ≠ msDay now → M ≠ msDay now - 1 →
          calculateStreakDays words now = 0)
      ∧ (∀ (words : List Word) (now M : ℤ), M ∈ reviewDays words →
          (∀ x ∈ reviewDays words, x ≤ M) → (M = msDay now ∨ M = msDay now - 1) →
          1 ≤ calculateStreakDays words now
            ∧ (∀ i : ℕ, (i : ℤ) < (calculateStreakDays words now : ℤ) →
                M - (i : ℤ) ∈ reviewDays words)
            ∧ M - (calculateStreakDays words now : ℤ) ∉ reviewDays words)
      ∧ calculateStreakDays demoTodayYesterday demoNow = 2
      ∧ calculateStreakDays demoWithGap demoNow = 2 := by
  refine ⟨?_, ?_, ?_, ?_, ?_⟩
  · intro words now h
    rw [calculateStreakDays, h, streakOfDays]
    simp
  · intro words now M hM hmax h1 h2
    exact (streakOfDays_spec (reviewDays words) (msDay now) M hM hmax).1 h1 h2
  · intro words now M hM hmax hor
    exact (streakOfDays_spec (reviewDays words) (msDay now) M hM hmax).2 hor
  · decide
  · decide

/-- Witness for C8: the stale scenario (only review three days ago) gives
streak 0 through the second conjunct, and the today-plus-yesterday
scenario gives a streak of at least 1 covering days 100 and 99 but not 98
through the third conjunct. -/
theorem c8_streak_characterization_witness :
    calculateStreakDays demoStale demoNow = 0
      ∧ (1 ≤ calculateStreakDays demoTodayYesterday demoNow
          ∧ (∀ i : ℕ, (i : ℤ) < (calculateStreakDays demoTodayYesterday demoNow : ℤ) →
              (100 : ℤ) - (i : ℤ) ∈ reviewDays demoTodayYesterday)
          ∧ (100 : ℤ) - (calculateStreakDays demoTodayYesterday demoNow : ℤ)
              ∉ reviewDays demoTodayYesterday) :=
  ⟨c8_streak_characterization.2.1 demoStale demoNow 97 (by decide) (by decide)
      (by decide) (by decide),
    c8_streak_characterization.2.2.1 demoTodayYesterday demoNow 100 (by decide)
      (by decide) (by decide)⟩

end VocabFsrs
